import Mathlib

/-!
Verification of the dnscontrol reconciliation slice: the cloudflare,
exoscale and hosting.de providers' `GetDomainCorrections` pipelines, the
hosting.de registrar correction logic, and the shared diff/normalization
contract.  Pure Go functions are embedded as Lean functions; the shared
diff engine (`pkg/diff.IncrementalDiff`), whose source is not part of this
slice, is modelled from the specification and clearly marked as such.
-/

namespace DnsControl

/-- The canonical DNS record model (`models.RecordConfig` restricted to the
fields this slice reads): a label relative to the zone (`"@"` for the apex),
a record type string, the target payload, a TTL in seconds (0 = zone
default), and the `cloudflare_proxy` metadata entry (`""` when unset; for
records decoded from the cloudflare API it reflects `Original.Proxied`). -/
structure Rec where
  label : String
  rtype : String
  target : String
  ttl : Nat
  proxy : String
deriving DecidableEq, Repr

/-- `diff.Correlation`: pairs at most one existing record with at most one
desired record.  Deletions carry only `existing`, creations only `desired`,
modifications both. -/
structure Correlation where
  existing : Option Rec
  desired : Option Rec
deriving DecidableEq, Repr

/-- The existing record of a correlation.  The Go code dereferences
`d.Existing` directly; the diff engine always populates it for deletions
and modifications, so the default is never reached on those paths. -/
def Correlation.exRec (d : Correlation) : Rec :=
  d.existing.getD ⟨"", "", "", 0, ""⟩

/-- The desired record of a correlation (see `Correlation.exRec`). -/
def Correlation.deRec (d : Correlation) : Rec :=
  d.desired.getD ⟨"", "", "", 0, ""⟩

/-- Modelled from the spec: `diff.Correlation.String()` (not in this slice)
renders a deterministic human-readable description of the change. -/
def Correlation.str (d : Correlation) : String :=
  match d.existing, d.desired with
  | some e, none => "- DELETE " ++ e.label ++ " " ++ e.rtype ++ " " ++ e.target
  | none, some c => "+ CREATE " ++ c.label ++ " " ++ c.rtype ++ " " ++ c.target
  | some e, some c =>
      "~ MODIFY " ++ e.label ++ " " ++ e.rtype ++ " " ++ e.target ++ " -> " ++ c.target
  | none, none => ""

/-- The changeset produced by the differ: creations, deletions and
modifications (the `unchanged` component is unused by the providers). -/
structure Changeset where
  create : List Correlation
  del : List Correlation
  mod : List Correlation
deriving DecidableEq, Repr

/-- Modelled from the spec: the identity key used by `pkg/diff` (not in this
slice) to match desired against existing records — "(label, type,
normalized-identity-fields)"; TTL and metadata are excluded. -/
def identityKey (r : Rec) : String × String × String :=
  (r.label, r.rtype, r.target)

/-- Modelled from the spec: whether a matched pair differs in its
non-identity fields — "compare non-identity fields (TTL, metadata flagged
as comparable)".  `extras` is the provider-supplied comparable-metadata
function (cloudflare passes `getProxyMetadata`; hosting.de passes none). -/
def recDiffers (extras : Rec → List (String × String)) (e d : Rec) : Bool :=
  e.ttl != d.ttl || extras e != extras d

/-- Modelled from the spec: `pkg/diff.IncrementalDiff` (not in this slice).
Keys present only in desired become creations, keys present only in
existing become deletions, and matched keys whose non-identity fields
differ become modifications.  Purge (`KeepUnknown`) is not handled here:
the hosting.de provider applies it itself after diffing. -/
def incrementalDiff (extras : Rec → List (String × String))
    (desired existing : List Rec) : Changeset :=
  { create :=
      (desired.filter fun d =>
        !(existing.any fun e => identityKey e == identityKey d)).map
        fun d => ⟨none, some d⟩
  , del :=
      (existing.filter fun e =>
        !(desired.any fun d => identityKey d == identityKey e)).map
        fun e => ⟨some e, none⟩
  , mod :=
      existing.filterMap fun e =>
        match desired.find? (fun d => identityKey d == identityKey e) with
        | some d => if recDiffers extras e d then some ⟨some e, some d⟩ else none
        | none => none }

/-- One applicable unit of work.  The Go `models.Correction` holds a message
and a closure; the model replaces the closure by the operation it performs:
its change kind, record type and label (`kind = .ssl` for the domain-level
Universal SSL toggle, which touches no record). -/
inductive CorrectionKind where
  | del | create | mod | ssl
deriving DecidableEq, Repr

/-- A correction unit: change kind, record type, record label, message. -/
structure Correction where
  kind : CorrectionKind
  rtype : String
  label : String
  msg : String
deriving DecidableEq, Repr

/-! ## Cloudflare provider (`providers/cloudflare/cloudflareProvider.go`)

The model fixes `manageRedirects = false` and `manageWorkers = false`:
`getPageRules` / `getWorkerRoutes` fetch provider-side state through code
outside this slice, so the page-rule / worker-route fetch paths are not
modelled (their correction-assembly branches are).  `models.PostProcessRecords`
is likewise outside this slice and is omitted. -/

/-- `labelMatches`: true when the label equals one of the configured
`ignored_labels` entries (exact string comparison). -/
def labelMatches (label : String) (ms : List String) : Bool :=
  ms.any fun tst => label == tst

/-- `checkProxyVal`: lower-case the value and require on/off/full. -/
def checkProxyVal (v : String) : Except String String :=
  let v := v.toLower
  if v ≠ "on" ∧ v ≠ "off" ∧ v ≠ "full" then
    .error ("bad metadata value for cloudflare_proxy: '" ++ v ++ "'. Use on/off/full")
  else
    .ok v

/-- The per-record body of `preprocessConfig`'s main loop: TTL munging
(0 or 300 becomes cloudflare auto-TTL 1; other TTLs below 120 become 120),
proxy-metadata validation/defaulting, and the CF_REDIRECT / CF_WORKER_ROUTE
pseudo-type handling.  With `manageRedirects = false` a CF_REDIRECT record
is always an error.  (The Go loop iterates in reverse only to number
page-rule priorities, which the redirect error path makes unreachable
here; per-record effects are otherwise independent.) -/
def preprocessProxy (defProxy : String) (r : Rec) : Except String Rec :=
  if r.rtype ≠ "A" ∧ r.rtype ≠ "CNAME" ∧ r.rtype ≠ "AAAA" ∧ r.rtype ≠ "ALIAS" then
    if r.proxy ≠ "" then
      .error ("cloudflare_proxy set on " ++ r.rtype ++ " record: " ++ r.label)
    else
      .ok { r with proxy := "off" }
  else
    if r.proxy = "" then
      .ok { r with proxy := defProxy }
    else
      match checkProxyVal r.proxy with
      | .error e => .error e
      | .ok v => .ok { r with proxy := v }

/-- The TTL munging at the top of `preprocessConfig`'s loop body: a TTL of
0 or of the dnscontrol default 300 becomes cloudflare auto-TTL 1; any other
TTL below 120 becomes 120. -/
def cfTTLMunge (r : Rec) : Rec :=
  let r := if r.ttl = 0 ∨ r.ttl = 300 then { r with ttl := 1 } else r
  if r.ttl ≠ 1 ∧ r.ttl < 120 then { r with ttl := 120 } else r

/-- The CF_REDIRECT / CF_TEMP_REDIRECT / CF_WORKER_ROUTE handling at the
bottom of `preprocessConfig`'s loop body (with `manageRedirects = false` a
CF_REDIRECT record is always an error). -/
def preprocessPseudoType (r : Rec) : Except String Rec :=
  if r.rtype = "CF_REDIRECT" ∨ r.rtype = "CF_TEMP_REDIRECT" then
    .error "you must add 'manage_redirects: true' metadata to cloudflare provider to use CF_REDIRECT records"
  else if r.rtype = "CF_WORKER_ROUTE" then
    if (r.target.splitOn ",").length ≠ 2 then
      .error "invalid data specified for cloudflare worker record"
    else
      .ok { r with ttl := 1, rtype := "WORKER_ROUTE" }
  else
    .ok r

/-- The whole loop body of `preprocessConfig`: TTL munging, then the
proxy-normalization step, then the pseudo-type handling. -/
def preprocessRecord (defProxy : String) (r0 : Rec) : Except String Rec :=
  match preprocessProxy defProxy (cfTTLMunge r0) with
  | .error e => .error e
  | .ok r => preprocessPseudoType r

/-- Models `net.ParseIP` success on the dotted-quad IPv4 form (the form the
ip-conversion feature operates on; the IPv6 textual forms are not needed by
any record this model feeds in). -/
def validIPv4 (s : String) : Bool :=
  let parts := s.splitOn "."
  parts.length == 4 && parts.all fun p =>
    decide (0 < p.length) && p.length ≤ 3 && p.toList.all Char.isDigit

/-- The ip-conversion loop of `preprocessConfig`: fully-proxied A records
must carry a parsable IP.  `transform.IP` is outside this slice; with the
empty conversion table it returns the address unchanged, so the target is
kept as-is here. -/
def checkFullProxyIP (r : Rec) : Except String Rec :=
  if r.rtype = "A" ∧ r.proxy = "full" then
    if validIPv4 r.target then .ok r
    else .error (r.target ++ " is not a valid ip address")
  else
    .ok r

/-- The per-record body of the desired-records loop in
`GetDomainCorrections`: ALIAS becomes CNAME, proxied records are forced to
TTL 1, and a desired label that matches `ignored_labels` aborts the run
(`log.Fatalf` in the Go code, modelled as an error result). -/
def cfDesiredMunge (r : Rec) : Rec :=
  let r := if r.rtype = "ALIAS" then { r with rtype := "CNAME" } else r
  if r.proxy ≠ "off" then { r with ttl := 1 } else r

/-- The ignored-label abort that follows `cfDesiredMunge` in the
desired-records loop. -/
def cfDesiredStep (ignored : List String) (r0 : Rec) : Except String Rec :=
  let r := cfDesiredMunge r0
  if labelMatches r.label ignored then
    .error ("FATAL: dnsconfig contains label that matches ignored_labels: " ++ r.label)
  else
    .ok r

/-- `checkNSModifications`: drop desired NS records at the zone apex
(`GetLabelFQDN() == dc.Name`, i.e. label `"@"`); cloudflare does not allow
modifying base-domain NS records. -/
def checkNSModifications (records : List Rec) : List Rec :=
  records.filter fun r => !(r.rtype == "NS" && r.label == "@")

/-- `getProxyMetadata`: the comparable-metadata function handed to the
differ — the proxy flag of A/AAAA/CNAME records.  (For existing records the
Go code reads `Original.Proxied`, for desired records the metadata entry;
both are carried by `Rec.proxy` here.) -/
def getProxyMetadata (r : Rec) : List (String × String) :=
  if r.rtype ≠ "A" ∧ r.rtype ≠ "AAAA" ∧ r.rtype ≠ "CNAME" then []
  else [("proxy", if r.proxy ≠ "off" then "true" else "false")]

/-- `checkUniversalSSL`: compares the fetched Universal SSL state (`actual`,
`none` when the fetch fails) against the `cloudflare_universalssl` domain
metadata; returns (changed, desired state). -/
def checkUniversalSSL (uSSL : String) (actual : Option Bool) :
    Except String (Bool × Bool) :=
  if uSSL = "" then .error "metadata not set"
  else
    match actual with
    | some a =>
        let expected := uSSL ≠ "off"
        if a ≠ expected then .ok (true, expected) else .ok (false, expected)
    | none => .error "error receiving universal ssl state"

/-- The Universal SSL corrections appended after the record-level ones:
one correction exactly when `checkUniversalSSL` succeeds with `changed`. -/
def cfSSLCorrections (uSSL : String) (actual : Option Bool) : List Correction :=
  match checkUniversalSSL uSSL actual with
  | .ok (true, newState) =>
      [⟨.ssl, "", "",
        "Universal SSL will be " ++ (if newState then "enabled" else "disabled")
          ++ " for this domain."⟩]
  | _ => []

/-- The correction built for one deletion (`c.deleteRec` /
`deletePageRule` / `deleteWorkerRoute`; their bodies are outside this
slice and each yields one correction carrying `d.String()`). -/
def delCor (d : Correlation) : Correction :=
  ⟨.del, d.exRec.rtype, d.exRec.label, d.str⟩

/-- The correction built for one creation (see `delCor`). -/
def creCor (d : Correlation) : Correction :=
  ⟨.create, d.deRec.rtype, d.deRec.label, d.str⟩

/-- The correction built for one modification. -/
def modCor (d : Correlation) : Correction :=
  ⟨.mod, d.deRec.rtype, d.deRec.label, d.str⟩

/-- One iteration of the deletion loop in `GetDomainCorrections`: page
rules and worker routes are appended; a DS deletion is prepended ("we
remove DS records before any NS records"); anything else is appended. -/
def cfDelStep (acc : List Correction) (d : Correlation) : List Correction :=
  if d.exRec.rtype = "PAGE_RULE" then acc ++ [delCor d]
  else if d.exRec.rtype = "WORKER_ROUTE" then acc ++ [delCor d]
  else if d.exRec.rtype = "DS" then delCor d :: acc
  else acc ++ [delCor d]

/-- One iteration of the creation loop: page rules and worker routes are
appended; an NS creation is prepended ("we create NS records before any DS
records"); anything else is appended.  `c.createRec` returns a slice of
corrections; its body is outside this slice and is modelled as one
correction per record. -/
def cfCreateStep (acc : List Correction) (d : Correlation) : List Correction :=
  if d.deRec.rtype = "PAGE_RULE" then acc ++ [creCor d]
  else if d.deRec.rtype = "WORKER_ROUTE" then acc ++ [creCor d]
  else if d.deRec.rtype = "NS" then creCor d :: acc
  else acc ++ [creCor d]

/-- One iteration of the modification loop: always appended. -/
def cfModStep (acc : List Correction) (d : Correlation) : List Correction :=
  acc ++ [modCor d]

/-- The correction-assembly phase of cloudflare's `GetDomainCorrections`:
the deletion loop, then the creation loop, then the modification loop, then
the Universal SSL correction. -/
def cfAssemble (cs : Changeset) (uSSL : String) (actual : Option Bool) :
    List Correction :=
  cs.mod.foldl cfModStep (cs.create.foldl cfCreateStep (cs.del.foldl cfDelStep []))
    ++ cfSSLCorrections uSSL actual

/-- The changeset-computation phase of cloudflare's `GetDomainCorrections`:
validate the Universal SSL metadata, resolve the default proxy setting,
preprocess the desired records, filter ignored labels out of the existing
records, run the desired-records loop (which aborts on ignored desired
labels), drop apex NS records, and diff. -/
def cfComputeChangeset (ignored : List String) (defProxyMeta uSSL : String)
    (api desired : List Rec) : Except String Changeset :=
  if uSSL ≠ "" ∧ uSSL.toLower ≠ "on" ∧ uSSL.toLower ≠ "off" then
    .error ("bad metadata value for cloudflare_universalssl: '" ++ uSSL ++ "'. Use on/off")
  else
    match (if defProxyMeta = "" then .ok "off" else checkProxyVal defProxyMeta) with
    | .error e => .error e
    | .ok defProxy =>
      match desired.mapM (preprocessRecord defProxy) with
      | .error e => .error e
      | .ok desired1 =>
        match desired1.mapM checkFullProxyIP with
        | .error e => .error e
        | .ok desired2 =>
          let existing := api.filter fun r => !(labelMatches r.label ignored)
          match desired2.mapM (cfDesiredStep ignored) with
          | .error e => .error e
          | .ok desired3 =>
            .ok (incrementalDiff getProxyMetadata (checkNSModifications desired3) existing)

/-- Cloudflare's `GetDomainCorrections`: compute the changeset, then
assemble the ordered correction list. -/
def cfGetDomainCorrections (ignored : List String) (defProxyMeta uSSL : String)
    (actual : Option Bool) (api desired : List Rec) :
    Except String (List Correction) :=
  match cfComputeChangeset ignored defProxyMeta uSSL api desired with
  | .error e => .error e
  | .ok cs => .ok (cfAssemble cs uSSL actual)

/-! ## Exoscale provider (`providers/exoscale/exoscaleProvider.go`) -/

/-- A record as returned by the exoscale API (`egoscale.DNSDomainRecord`
restricted to the fields the decode loop reads; `label = ""` stands for a
nil/empty name, `priority` for the separate priority field). -/
structure ExoRecord where
  rtype : String
  label : String
  target : String
  ttl : Nat
  priority : Option Nat
deriving DecidableEq, Repr

/-- The body of the existing-records decode loop in exoscale's
`GetDomainCorrections`: SOA and NS records are skipped entirely, an empty
name becomes `"@"`, CNAME/MX/ALIAS/SRV contents gain a trailing dot (SRV
additionally a priority prefix), and the mirror TXT records exoscale adds
for ALIAS records are skipped.  (`PopulateFromString` / `SetTargetMX` are
outside this slice; the content string is carried as the target.) -/
def exoName (r : ExoRecord) : String :=
  if r.label = "" then "@" else r.label

/-- The content transform of the decode loop: CNAME/MX/ALIAS/SRV contents
gain a trailing dot, SRV additionally a priority prefix. -/
def exoContent (r : ExoRecord) : String :=
  if r.rtype = "CNAME" ∨ r.rtype = "MX" ∨ r.rtype = "ALIAS" ∨ r.rtype = "SRV" then
    let t := r.target ++ "."
    match r.rtype == "SRV", r.priority with
    | true, some p => toString p ++ " " ++ t
    | _, _ => t
  else r.target

/-- See `exoName` / `exoContent` for the per-field transforms. -/
def exoDecodeRecord (r : ExoRecord) : Option Rec :=
  if r.rtype = "SOA" ∨ r.rtype = "NS" then none
  else if r.rtype = "TXT" ∧ (exoContent r).startsWith "ALIAS for " then none
  else some ⟨exoName r, r.rtype, exoContent r, r.ttl, ""⟩

/-- `removeOtherNS`: drop every NS record from the desired state (apex NS
pointing at exoscale's own servers silently, anything else with a printed
warning — both `continue` past the append). -/
def removeOtherNS (records : List Rec) : List Rec :=
  records.filter fun r => !(r.rtype == "NS")

/-- Exoscale's `GetDomainCorrections`: decode and filter the API records,
drop NS records from the desired state, diff (no comparable metadata), and
emit one correction per deletion, creation and modification, in that
order. -/
def exoscaleGetDomainCorrections (desired : List Rec) (api : List ExoRecord) :
    List Correction :=
  let existingRecords := api.filterMap exoDecodeRecord
  let cs := incrementalDiff (fun _ => []) (removeOtherNS desired) existingRecords
  cs.del.map delCor ++ cs.create.map creCor ++ cs.mod.map modCor

/-! ## hosting.de provider (`src/unnamed/part_000`, package hostingde) -/

/-- The TTL clamp at the top of hosting.de's `GetDomainCorrections`:
"TTL must be between (inclusive) 1m and 1y" — anything below 60 becomes
60, anything above 31556926 becomes 31556926. -/
def clampTTL (r : Rec) : Rec :=
  let r := if r.ttl < 60 then { r with ttl := 60 } else r
  if r.ttl > 31556926 then { r with ttl := 31556926 } else r

/-- The desired records after hosting.de's TTL clamp. -/
def clampRecords (l : List Rec) : List Rec :=
  l.map clampTTL

/-- hosting.de's single bundled correction: the joined message plus the
changeset handed to `hp.updateRecords(dc.Name, create, del, mod)` (the
closure's payload, kept explicit here). -/
structure HCorrection where
  msg : String
  create : List Correlation
  del : List Correlation
  mod : List Correlation
deriving DecidableEq, Repr

/-- The changeset hosting.de's `GetDomainCorrections` acts on: clamp the
desired TTLs, drop SOA records from the zone's existing records (as
`GetZoneRecords` does), diff without comparable metadata, and clear the
deletions when the zone's `KeepUnknown` (NOPURGE) flag is set. -/
def hdChangeset (keepUnknown : Bool) (desired existing : List Rec) : Changeset :=
  let cs := incrementalDiff (fun _ => [])
    (clampRecords desired)
    (existing.filter fun r => !(r.rtype == "SOA"))
  { cs with del := if keepUnknown then [] else cs.del }

/-- hosting.de's `GetDomainCorrections`: zero corrections when the
changeset is empty, otherwise one correction whose message joins every
operation's description (deletions, then creations, then modifications)
and whose action applies the whole changeset in one `updateRecords`
call. -/
def hostingdeGetDomainCorrections (keepUnknown : Bool)
    (desired existing : List Rec) : List HCorrection :=
  let cs := hdChangeset keepUnknown desired existing
  let msgs := (cs.del ++ (cs.create ++ cs.mod)).map Correlation.str
  if cs.create = [] ∧ cs.del = [] ∧ cs.mod = [] then []
  else [⟨"\n" ++ String.intercalate "\n" msgs, cs.create, cs.del, cs.mod⟩]

/-- A registrar-level correction (message only; the action updates the
nameserver delegation). -/
structure RegCorrection where
  msg : String
deriving DecidableEq, Repr

/-- `sort.Strings`: sort a string slice in increasing lexicographic
order. -/
def sortStrings (l : List String) : List String :=
  l.insertionSort (· ≤ ·)

/-- hosting.de's `GetRegistrarCorrections`: sort both the nameservers found
at the registrar and the ones the configuration expects, join each with
commas, and emit a single update correction exactly when the joined strings
differ. -/
def hostingdeGetRegistrarCorrections (found expected : List String) :
    List RegCorrection :=
  let foundNameservers := String.intercalate "," (sortStrings found)
  let expectedNameservers := String.intercalate "," (sortStrings expected)
  if foundNameservers ≠ expectedNameservers then
    [⟨"Update nameservers " ++ foundNameservers ++ " -> " ++ expectedNameservers⟩]
  else []

/-- The outcome of `hp.getZoneConfig`: success, the `errZoneNotFound`
sentinel, or any other lookup error. -/
inductive ZoneLookup where
  | found
  | zoneNotFound
  | otherError (msg : String)
deriving DecidableEq, Repr

/-- hosting.de's `EnsureDomainExists`: only the zone-not-found sentinel
triggers `createZone` (whose result, `none` on success, is propagated);
every other lookup outcome — success or failure — returns nil.  The second
component records whether `createZone` was invoked. -/
def ensureDomainExists (lookup : ZoneLookup) (createResult : Option String) :
    Option String × Bool :=
  match lookup with
  | .zoneNotFound =>
      match createResult with
      | some e => (some e, true)
      | none => (none, true)
  | _ => (none, false)

/-! ## TXT chunking (spec §4.1; `txtutil.SplitSingleLongTxt` is outside
this slice) -/

/-- Modelled from the spec: `txtutil.SplitSingleLongTxt` (not in this
slice) — "Multi-string TXT content longer than 255 octets is split into
≤255-octet chunks".  Octets are represented as list elements. -/
def chunkTxt (l : List Nat) : List (List Nat) :=
  if l.length ≤ 255 then [l]
  else l.take 255 :: chunkTxt (l.drop 255)
termination_by l.length
decreasing_by
  simp only [List.length_drop]
  omega

/-- Modelled from the spec: normalizing a multi-string TXT value splits
each string into ≤255-octet chunks. -/
def normTxtStrings (ss : List (List Nat)) : List (List Nat) :=
  ss.flatMap chunkTxt

/-! ## Glob matching (spec §4.2 / §9; the `gobwas/glob`-style matcher used
by `IGNORE_NAME` is outside this slice) -/

/-- One character-class atom of a bracket expression: a literal character
or a range. -/
def classAtomMatches (a : Char × Char) (c : Char) : Bool :=
  a.1 ≤ c && c ≤ a.2

/-- Parse a bracket expression body up to the closing `]`; returns the
atoms and the rest of the pattern, or `none` when the class is
unterminated. -/
def parseClassAtoms : List Char → Option (List (Char × Char) × List Char)
  | [] => none
  | ']' :: ps => some ([], ps)
  | a :: '-' :: b :: ps =>
      if b = ']' then some ([(a, a), ('-', '-')], ps)
      else (parseClassAtoms ps).map fun (atoms, rest) => ((a, b) :: atoms, rest)
  | a :: ps =>
      (parseClassAtoms ps).map fun (atoms, rest) => ((a, a) :: atoms, rest)

/-- Modelled from the spec: glob-style label matching — "`*` matches within
one label segment, `**` matches across segments, `?` matches one character,
bracket classes" (`[...]`, with `!` negation and ranges).  Alternation
groups are not needed by any theorem below and are treated as ordinary
characters. -/
def globMatch : List Char → List Char → Bool
  | [], [] => true
  | [], _ :: _ => false
  | '*' :: '*' :: ps, s =>
      globMatch ps s ||
        (match s with
         | [] => false
         | _ :: s' => globMatch ('*' :: '*' :: ps) s')
  | '*' :: ps, s =>
      globMatch ps s ||
        (match s with
         | [] => false
         | c :: s' => c ≠ '.' && globMatch ('*' :: ps) s')
  | '?' :: ps, _ :: s => globMatch ps s
  | '?' :: _, [] => false
  | '[' :: '!' :: ps, c :: s =>
      (match parseClassAtoms ps with
       | some (atoms, rest) => !(atoms.any fun a => classAtomMatches a c) && globMatch rest s
       | none => false)
  | '[' :: ps, c :: s =>
      (match parseClassAtoms ps with
       | some (atoms, rest) => (atoms.any fun a => classAtomMatches a c) && globMatch rest s
       | none => false)
  | p :: ps, c :: s => p == c && globMatch ps s
  | _ :: _, [] => false

/-- Glob matching on strings (spec-modelled; see `globMatch`). -/
def globMatches (pat s : String) : Bool :=
  globMatch pat.toList s.toList

/-! ## Decomposition of the cloudflare correction assembly -/

/-- The DS deletions of a deletion changeset, as corrections. -/
def dsDels (del : List Correlation) : List Correction :=
  (del.filter fun d => d.exRec.rtype == "DS").map delCor

/-- The non-DS deletions of a deletion changeset, as corrections. -/
def othDels (del : List Correlation) : List Correction :=
  (del.filter fun d => !(d.exRec.rtype == "DS")).map delCor

/-- The NS creations of a creation changeset, as corrections. -/
def nsCres (create : List Correlation) : List Correction :=
  (create.filter fun d => d.deRec.rtype == "NS").map creCor

/-- The non-NS creations of a creation changeset, as corrections. -/
def othCres (create : List Correlation) : List Correction :=
  (create.filter fun d => !(d.deRec.rtype == "NS")).map creCor

/-- The modifications of a changeset, as corrections. -/
def modCors (mods : List Correlation) : List Correction :=
  mods.map modCor

/-! ## Helper lemmas -/

theorem cfDelStep_eq (acc : List Correction) (d : Correlation) :
    cfDelStep acc d =
      if d.exRec.rtype == "DS" then delCor d :: acc else acc ++ [delCor d] := by
  unfold cfDelStep
  by_cases h1 : d.exRec.rtype = "PAGE_RULE" <;>
    by_cases h2 : d.exRec.rtype = "WORKER_ROUTE" <;>
      by_cases h3 : d.exRec.rtype = "DS" <;>
        simp_all

theorem cfCreateStep_eq (acc : List Correction) (d : Correlation) :
    cfCreateStep acc d =
      if d.deRec.rtype == "NS" then creCor d :: acc else acc ++ [creCor d] := by
  unfold cfCreateStep
  by_cases h1 : d.deRec.rtype = "PAGE_RULE" <;>
    by_cases h2 : d.deRec.rtype = "WORKER_ROUTE" <;>
      by_cases h3 : d.deRec.rtype = "NS" <;>
        simp_all

theorem foldl_step_decomp {α β : Type} (p : α → Bool) (f : α → β)
    (step : List β → α → List β)
    (hstep : ∀ acc d, step acc d = if p d then f d :: acc else acc ++ [f d]) :
    ∀ (l : List α) (acc : List β),
      l.foldl step acc =
        ((l.filter p).map f).reverse ++ acc ++ ((l.filter fun d => !(p d)).map f) := by
  intro l
  induction l with
  | nil => intro acc; simp
  | cons d l ih =>
    intro acc
    rw [List.foldl_cons, hstep, ih]
    by_cases h : p d
    · simp [h, List.filter_cons]
    · simp [h, List.filter_cons]

theorem cfAssemble_eq (cs : Changeset) (uSSL : String) (actual : Option Bool) :
    cfAssemble cs uSSL actual =
      (nsCres cs.create).reverse ++ (dsDels cs.del).reverse ++ othDels cs.del
        ++ othCres cs.create ++ modCors cs.mod ++ cfSSLCorrections uSSL actual := by
  unfold cfAssemble
  rw [foldl_step_decomp (fun d => d.exRec.rtype == "DS") delCor cfDelStep cfDelStep_eq,
    foldl_step_decomp (fun d => d.deRec.rtype == "NS") creCor cfCreateStep cfCreateStep_eq,
    foldl_step_decomp (fun _ => false) modCor cfModStep (by intro acc d; simp [cfModStep])]
  simp [dsDels, othDels, nsCres, othCres, modCors]

theorem mem_dsDels {c : Correction} {del : List Correlation}
    (h : c ∈ (dsDels del).reverse) : c.kind = .del ∧ c.rtype = "DS" := by
  rw [List.mem_reverse] at h
  obtain ⟨d, hd, rfl⟩ := List.mem_map.mp h
  have := (List.mem_filter.mp hd).2
  simp only [beq_iff_eq] at this
  exact ⟨rfl, this⟩

theorem mem_othDels {c : Correction} {del : List Correlation}
    (h : c ∈ othDels del) : c.kind = .del ∧ c.rtype ≠ "DS" := by
  obtain ⟨d, hd, rfl⟩ := List.mem_map.mp h
  have := (List.mem_filter.mp hd).2
  simp only [Bool.not_eq_true', beq_eq_false_iff_ne, ne_eq] at this
  exact ⟨rfl, this⟩

theorem mem_nsCres {c : Correction} {create : List Correlation}
    (h : c ∈ (nsCres create).reverse) : c.kind = .create ∧ c.rtype = "NS" := by
  rw [List.mem_reverse] at h
  obtain ⟨d, hd, rfl⟩ := List.mem_map.mp h
  have := (List.mem_filter.mp hd).2
  simp only [beq_iff_eq] at this
  exact ⟨rfl, this⟩

theorem mem_othCres {c : Correction} {create : List Correlation}
    (h : c ∈ othCres create) : c.kind = .create ∧ c.rtype ≠ "NS" := by
  obtain ⟨d, hd, rfl⟩ := List.mem_map.mp h
  have := (List.mem_filter.mp hd).2
  simp only [Bool.not_eq_true', beq_eq_false_iff_ne, ne_eq] at this
  exact ⟨rfl, this⟩

theorem mem_modCors {c : Correction} {mods : List Correlation}
    (h : c ∈ modCors mods) : c.kind = .mod := by
  obtain ⟨d, _, rfl⟩ := List.mem_map.mp h
  rfl

theorem mem_sslCors {c : Correction} {uSSL : String} {actual : Option Bool}
    (h : c ∈ cfSSLCorrections uSSL actual) : c.kind = .ssl := by
  unfold cfSSLCorrections at h
  rcases hc : checkUniversalSSL uSSL actual with e | ⟨b1, b2⟩ <;> rw [hc] at h
  · simp at h
  · rcases b1 <;> simp at h
    subst h; rfl

/-- If `P` holds only inside the prefix `A` and `Q` only inside the suffix
`B` of `L = A ++ B`, then every position satisfying `P` comes before every
position satisfying `Q`. -/
theorem index_lt_of_split {β : Type} (P Q : β → Prop) (A B L : List β)
    (hL : L = A ++ B)
    (hA : ∀ c ∈ A, ¬ Q c) (hB : ∀ c ∈ B, ¬ P c)
    (i j : ℕ) (hi : i < L.length) (hj : j < L.length)
    (hP : P (L[i])) (hQ : Q (L[j])) : i < j := by
  subst hL
  have hiA : i < A.length := by
    by_contra h
    push_neg at h
    rw [List.getElem_append_right h] at hP
    exact hB _ (List.getElem_mem _) hP
  have hjA : A.length ≤ j := by
    by_contra h
    push_neg at h
    rw [List.getElem_append_left h] at hQ
    exact hA _ (List.getElem_mem _) hQ
  omega

theorem cfGetDomainCorrections_ok {ign : List String} {dP uSSL : String}
    {act : Option Bool} {api desired : List Rec} {cors : List Correction}
    (h : cfGetDomainCorrections ign dP uSSL act api desired = .ok cors) :
    ∃ cs, cfComputeChangeset ign dP uSSL api desired = .ok cs ∧
      cors = cfAssemble cs uSSL act := by
  unfold cfGetDomainCorrections at h
  rcases hc : cfComputeChangeset ign dP uSSL api desired with e | cs <;> rw [hc] at h
  · cases h
  · exact ⟨cs, rfl, by cases h; rfl⟩

/-- C1: in the correction list cloudflare's `GetDomainCorrections` emits,
every DS-record deletion precedes every NS-record deletion at the same
label, and every NS-record creation precedes every DS-record creation at
the same label. -/
theorem cloudflare_ds_ns_correction_order
    (ign : List String) (defProxyMeta uSSL : String) (actual : Option Bool)
    (api desired : List Rec) (cors : List Correction)
    (hok : cfGetDomainCorrections ign defProxyMeta uSSL actual api desired = .ok cors)
    (i j : ℕ) (hi : i < cors.length) (hj : j < cors.length) :
    (cors[i].kind = .del → cors[i].rtype = "DS" →
     cors[j].kind = .del → cors[j].rtype = "NS" →
     cors[i].label = cors[j].label → i < j)
    ∧ (cors[i].kind = .create → cors[i].rtype = "NS" →
       cors[j].kind = .create → cors[j].rtype = "DS" →
       cors[i].label = cors[j].label → i < j) := by
  obtain ⟨cs, -, rfl⟩ := cfGetDomainCorrections_ok hok
  constructor
  · intro h1 h2 h3 h4 _
    refine index_lt_of_split (fun c => c.kind = .del ∧ c.rtype = "DS")
      (fun c => c.kind = .del ∧ c.rtype = "NS")
      ((nsCres cs.create).reverse ++ (dsDels cs.del).reverse)
      (othDels cs.del ++ (othCres cs.create ++ (modCors cs.mod
        ++ cfSSLCorrections uSSL actual)))
      _ ?_ ?_ ?_ i j hi hj ⟨h1, h2⟩ ⟨h3, h4⟩
    · rw [cfAssemble_eq]
      simp [List.append_assoc]
    · intro c hc
      rcases List.mem_append.mp hc with hc | hc
      · have := mem_nsCres hc
        rintro ⟨hk, -⟩
        rw [this.1] at hk
        cases hk
      · have := mem_dsDels hc
        rintro ⟨-, hr⟩
        rw [this.2] at hr
        exact absurd hr (by decide)
    · intro c hc
      rcases List.mem_append.mp hc with hc | hc
      · have := mem_othDels hc
        rintro ⟨-, hr⟩
        exact this.2 hr
      rcases List.mem_append.mp hc with hc | hc
      · have := mem_othCres hc
        rintro ⟨hk, -⟩
        rw [this.1] at hk
        cases hk
      rcases List.mem_append.mp hc with hc | hc
      · have := mem_modCors hc
        rintro ⟨hk, -⟩
        rw [this] at hk
        cases hk
      · have := mem_sslCors hc
        rintro ⟨hk, -⟩
        rw [this] at hk
        cases hk
  · intro h1 h2 h3 h4 _
    refine index_lt_of_split (fun c => c.kind = .create ∧ c.rtype = "NS")
      (fun c => c.kind = .create ∧ c.rtype = "DS")
      ((nsCres cs.create).reverse)
      ((dsDels cs.del).reverse ++ (othDels cs.del ++ (othCres cs.create
        ++ (modCors cs.mod ++ cfSSLCorrections uSSL actual))))
      _ ?_ ?_ ?_ i j hi hj ⟨h1, h2⟩ ⟨h3, h4⟩
    · rw [cfAssemble_eq]
      simp [List.append_assoc]
    · intro c hc
      have := mem_nsCres hc
      rintro ⟨-, hr⟩
      rw [this.2] at hr
      exact absurd hr (by decide)
    · intro c hc
      rcases List.mem_append.mp hc with hc | hc
      · have := mem_dsDels hc
        rintro ⟨hk, -⟩
        rw [this.1] at hk
        cases hk
      rcases List.mem_append.mp hc with hc | hc
      · have := mem_othDels hc
        rintro ⟨hk, -⟩
        rw [this.1] at hk
        cases hk
      rcases List.mem_append.mp hc with hc | hc
      · have := mem_othCres hc
        rintro ⟨-, hr⟩
        exact this.2 hr
      rcases List.mem_append.mp hc with hc | hc
      · have := mem_modCors hc
        rintro ⟨hk, -⟩
        rw [this] at hk
        cases hk
      · have := mem_sslCors hc
        rintro ⟨hk, -⟩
        rw [this] at hk
        cases hk

theorem mapM_error_of_mem {α β : Type} {f : α → Except String β} {l : List α}
    {a : α} (ha : a ∈ l) {e : String} (hfa : f a = .error e) :
    ∃ e', l.mapM f = .error e' := by
  induction l with
  | nil => cases ha
  | cons b l ih =>
    rw [List.mapM_cons]
    rcases List.mem_cons.mp ha with rfl | ha
    · exact ⟨e, by rw [hfa]; rfl⟩
    · rcases hfb : f b with e' | v
      · exact ⟨e', rfl⟩
      · obtain ⟨e', h'⟩ := ih ha
        refine ⟨e', ?_⟩
        show (l.mapM f).bind _ = _
        rw [h']
        rfl

theorem mapM_ok_mem {α β : Type} {f : α → Except String β} {l : List α}
    {l' : List β} (h : l.mapM f = .ok l') :
    ∀ a ∈ l, ∃ b, f a = .ok b ∧ b ∈ l' := by
  induction l generalizing l' with
  | nil => intro a ha; cases ha
  | cons x xs ih =>
    rw [List.mapM_cons] at h
    rcases hfx : f x with e | b <;> rw [hfx] at h
    · cases h
    · rcases hxs : xs.mapM f with e | bs
      · rw [show (Except.ok b : Except String β) >>= (fun b =>
            xs.mapM f >>= fun bs => pure (b :: bs)) =
            xs.mapM f >>= fun bs => pure (b :: bs) from rfl, hxs] at h
        cases h
      · rw [show (Except.ok b : Except String β) >>= (fun b =>
            xs.mapM f >>= fun bs => pure (b :: bs)) =
            xs.mapM f >>= fun bs => pure (b :: bs) from rfl, hxs] at h
        have hl' : l' = b :: bs := by
          cases h
          rfl
        subst hl'
        intro a ha
        rcases List.mem_cons.mp ha with rfl | ha
        · exact ⟨b, hfx, List.mem_cons_self _ _⟩
        · obtain ⟨b', hb', hmem⟩ := ih hxs a ha
          exact ⟨b', hb', List.mem_cons_of_mem _ hmem⟩

theorem cfTTLMunge_label (r : Rec) : (cfTTLMunge r).label = r.label := by
  simp only [cfTTLMunge]
  split_ifs <;> rfl

theorem preprocessProxy_label {dp : String} {r r' : Rec}
    (h : preprocessProxy dp r = .ok r') : r'.label = r.label := by
  unfold preprocessProxy at h
  rcases hv : checkProxyVal r.proxy with e | v <;> rw [hv] at h <;>
    split_ifs at h <;> cases h <;> rfl

theorem preprocessPseudoType_label {r r' : Rec}
    (h : preprocessPseudoType r = .ok r') : r'.label = r.label := by
  unfold preprocessPseudoType at h
  split_ifs at h <;> cases h <;> rfl

theorem preprocessRecord_label {dp : String} {r r' : Rec}
    (h : preprocessRecord dp r = .ok r') : r'.label = r.label := by
  unfold preprocessRecord at h
  rcases hp : preprocessProxy dp (cfTTLMunge r) with e | r2 <;> rw [hp] at h
  · cases h
  · have h2 : preprocessPseudoType r2 = .ok r' := h
    rw [preprocessPseudoType_label h2, preprocessProxy_label hp, cfTTLMunge_label]

theorem checkFullProxyIP_label {r r' : Rec}
    (h : checkFullProxyIP r = .ok r') : r'.label = r.label := by
  unfold checkFullProxyIP at h
  split_ifs at h
  · cases h
    rfl
  · cases h
    rfl

theorem cfDesiredMunge_label (r : Rec) : (cfDesiredMunge r).label = r.label := by
  simp only [cfDesiredMunge]
  split_ifs <;> rfl

theorem cfDesiredStep_error_of_match {ignored : List String} {r : Rec}
    (hm : labelMatches r.label ignored = true) :
    ∃ e, cfDesiredStep ignored r = .error e := by
  have h' : labelMatches (cfDesiredMunge r).label ignored = true := by
    rw [cfDesiredMunge_label]
    exact hm
  refine ⟨"FATAL: dnsconfig contains label that matches ignored_labels: "
    ++ (cfDesiredMunge r).label, ?_⟩
  unfold cfDesiredStep
  rw [if_pos h']

theorem cfComputeChangeset_error_of_ignored
    (ign : List String) (dP uSSL : String) (desired : List Rec) (r : Rec)
    (hr : r ∈ desired) (hm : labelMatches r.label ign = true) :
    ∃ e, ∀ api : List Rec, cfComputeChangeset ign dP uSSL api desired = .error e := by
  unfold cfComputeChangeset
  by_cases h1 : uSSL ≠ "" ∧ uSSL.toLower ≠ "on" ∧ uSSL.toLower ≠ "off"
  · exact ⟨_, fun api => by rw [if_pos h1]⟩
  simp only [if_neg h1]
  rcases hdp : (if dP = "" then Except.ok "off" else checkProxyVal dP) with e | defProxy <;>
    simp only [hdp]
  · exact ⟨e, fun api => rfl⟩
  rcases hm1 : desired.mapM (preprocessRecord defProxy) with e | des1 <;> simp only [hm1]
  · exact ⟨e, fun api => rfl⟩
  rcases hm2 : des1.mapM checkFullProxyIP with e | des2 <;> simp only [hm2]
  · exact ⟨e, fun api => rfl⟩
  obtain ⟨r1, hfr1, hr1⟩ := mapM_ok_mem hm1 r hr
  obtain ⟨r2, hfr2, hr2⟩ := mapM_ok_mem hm2 r1 hr1
  have hlab : r2.label = r.label := by
    rw [checkFullProxyIP_label hfr2, preprocessRecord_label hfr1]
  obtain ⟨e0, he0⟩ := cfDesiredStep_error_of_match (r := r2) (by rw [hlab]; exact hm)
  obtain ⟨e', he'⟩ := mapM_error_of_mem hr2 he0
  exact ⟨e', fun api => by simp only [he']⟩

/-- C3: when a desired record's label matches one of the configured ignore
patterns, cloudflare's reconciliation fails with a configuration-validation
error before any diff output is produced: the failure (and its message) is
independent of the provider's existing records.  (This provider has no
override modifier, so the claim's no-override hypothesis holds for every
record; the Go code aborts via `log.Fatalf`, modelled as an error
result.) -/
theorem cloudflare_ignored_desired_label_fails_validation
    (ign : List String) (defProxyMeta uSSL : String) (actual : Option Bool)
    (desired : List Rec) (r : Rec) (hr : r ∈ desired)
    (hm : labelMatches r.label ign = true) :
    ∃ e, ∀ api : List Rec,
      cfGetDomainCorrections ign defProxyMeta uSSL actual api desired = .error e := by
  obtain ⟨e, he⟩ := cfComputeChangeset_error_of_ignored ign defProxyMeta uSSL desired r hr hm
  refine ⟨e, fun api => ?_⟩
  unfold cfGetDomainCorrections
  rw [he api]

/-- Witness for C3: a desired CNAME at the ignored label "vpn" makes the
run fail regardless of the existing records. -/
theorem cloudflare_ignored_desired_label_fails_validation_witness :
    ∃ e, ∀ api : List Rec,
      cfGetDomainCorrections ["vpn"] "" "" none api
        [⟨"vpn", "CNAME", "x.example.com.", 3600, ""⟩] = .error e :=
  cloudflare_ignored_desired_label_fails_validation ["vpn"] "" "" none
    [⟨"vpn", "CNAME", "x.example.com.", 3600, ""⟩]
    ⟨"vpn", "CNAME", "x.example.com.", 3600, ""⟩
    (List.mem_cons_self _ _) (by decide)

/-- Witness for C1: a zone moving its delegation from label "sub" to label
"bar" — the emitted list is [create NS bar, delete DS sub, delete NS sub,
create DS bar], so the DS deletion (index 1) precedes the NS deletion
(index 2) and the NS creation (index 0) precedes the DS creation
(index 3). -/
theorem cloudflare_ds_ns_correction_order_witness : (1 : ℕ) < 2 ∧ (0 : ℕ) < 3 := by
  constructor
  · exact (cloudflare_ds_ns_correction_order [] "" "" none
      [⟨"sub", "DS", "1234 8 2 ABCD", 3600, ""⟩,
       ⟨"sub", "NS", "ns1.example.net.", 3600, ""⟩]
      [⟨"bar", "NS", "ns1.example.net.", 3600, ""⟩,
       ⟨"bar", "DS", "1234 8 2 ABCD", 3600, ""⟩]
      [⟨.create, "NS", "bar", "+ CREATE bar NS ns1.example.net."⟩,
       ⟨.del, "DS", "sub", "- DELETE sub DS 1234 8 2 ABCD"⟩,
       ⟨.del, "NS", "sub", "- DELETE sub NS ns1.example.net."⟩,
       ⟨.create, "DS", "bar", "+ CREATE bar DS 1234 8 2 ABCD"⟩]
      (by rfl) 1 2 (by decide) (by decide)).1 rfl rfl rfl rfl rfl
  · exact (cloudflare_ds_ns_correction_order [] "" "" none
      [⟨"sub", "DS", "1234 8 2 ABCD", 3600, ""⟩,
       ⟨"sub", "NS", "ns1.example.net.", 3600, ""⟩]
      [⟨"bar", "NS", "ns1.example.net.", 3600, ""⟩,
       ⟨"bar", "DS", "1234 8 2 ABCD", 3600, ""⟩]
      [⟨.create, "NS", "bar", "+ CREATE bar NS ns1.example.net."⟩,
       ⟨.del, "DS", "sub", "- DELETE sub DS 1234 8 2 ABCD"⟩,
       ⟨.del, "NS", "sub", "- DELETE sub NS ns1.example.net."⟩,
       ⟨.create, "DS", "bar", "+ CREATE bar DS 1234 8 2 ABCD"⟩]
      (by rfl) 0 3 (by decide) (by decide)).2 rfl rfl rfl rfl rfl

theorem incrementalDiff_del_mem {extras : Rec → List (String × String)}
    {desired existing : List Rec} {d : Correlation}
    (hd : d ∈ (incrementalDiff extras desired existing).del) :
    ∃ e ∈ existing, d = ⟨some e, none⟩ := by
  simp only [incrementalDiff] at hd
  obtain ⟨e, he, rfl⟩ := List.mem_map.mp hd
  exact ⟨e, (List.mem_filter.mp he).1, rfl⟩

/-- Every deletion-kind correction assembled by `cfAssemble` is `delCor` of
one of the changeset's deletion correlations. -/
theorem del_correction_src {cs : Changeset} {uSSL : String} {actual : Option Bool}
    {c : Correction} (hc : c ∈ cfAssemble cs uSSL actual) (hk : c.kind = .del) :
    ∃ d ∈ cs.del, c = delCor d := by
  rw [cfAssemble_eq] at hc
  rcases List.mem_append.mp hc with hc | hc
  rcases List.mem_append.mp hc with hc | hc
  rcases List.mem_append.mp hc with hc | hc
  rcases List.mem_append.mp hc with hc | hc
  rcases List.mem_append.mp hc with hc | hc
  · rw [(mem_nsCres hc).1] at hk
    cases hk
  · rw [List.mem_reverse] at hc
    obtain ⟨d, hd, rfl⟩ := List.mem_map.mp hc
    exact ⟨d, (List.mem_filter.mp hd).1, rfl⟩
  · obtain ⟨d, hd, rfl⟩ := List.mem_map.mp hc
    exact ⟨d, (List.mem_filter.mp hd).1, rfl⟩
  · rw [(mem_othCres hc).1] at hk
    cases hk
  · rw [mem_modCors hc] at hk
    cases hk
  · rw [mem_sslCors hc] at hk
    cases hk

/-- Successful changeset computation diffs against the ignore-filtered
existing records. -/
theorem cfComputeChangeset_ok_shape {ign : List String} {dP uSSL : String}
    {api desired : List Rec} {cs : Changeset}
    (h : cfComputeChangeset ign dP uSSL api desired = .ok cs) :
    ∃ des3, cs = incrementalDiff getProxyMetadata (checkNSModifications des3)
      (api.filter fun r => !(labelMatches r.label ign)) := by
  unfold cfComputeChangeset at h
  by_cases h1 : uSSL ≠ "" ∧ uSSL.toLower ≠ "on" ∧ uSSL.toLower ≠ "off"
  · rw [if_pos h1] at h
    cases h
  rw [if_neg h1] at h
  rcases hdp : (if dP = "" then Except.ok "off" else checkProxyVal dP) with e | defProxy
  · rw [hdp] at h
    cases h
  simp only [hdp] at h
  rcases hm1 : desired.mapM (preprocessRecord defProxy) with e | des1
  · rw [hm1] at h
    cases h
  simp only [hm1] at h
  rcases hm2 : des1.mapM checkFullProxyIP with e | des2
  · rw [hm2] at h
    cases h
  simp only [hm2] at h
  rcases hm3 : des2.mapM (cfDesiredStep ign) with e | des3
  · rw [hm3] at h
    cases h
  simp only [hm3] at h
  exact ⟨des3, by cases h; rfl⟩

/-- C4 (amended): an existing record whose label exactly equals one of the
configured ignore patterns is filtered out before diffing, so the emitted
corrections contain no deletion at that label. -/
theorem cloudflare_ignored_existing_label_not_deleted
    (ign : List String) (defProxyMeta uSSL : String) (actual : Option Bool)
    (api desired : List Rec) (cors : List Correction)
    (hok : cfGetDomainCorrections ign defProxyMeta uSSL actual api desired = .ok cors)
    (r : Rec) (_hr : r ∈ api) (hm : labelMatches r.label ign = true) :
    ∀ c ∈ cors, c.kind = .del → c.label ≠ r.label := by
  obtain ⟨cs, hcs, rfl⟩ := cfGetDomainCorrections_ok hok
  intro c hc hk hlab
  obtain ⟨d, hd, rfl⟩ := del_correction_src hc hk
  obtain ⟨des3, rfl⟩ := cfComputeChangeset_ok_shape hcs
  obtain ⟨e, he, rfl⟩ := incrementalDiff_del_mem hd
  have hnm : (!(labelMatches e.label ign)) = true := (List.mem_filter.mp he).2
  have hde : (delCor ⟨some e, none⟩).label = e.label := rfl
  rw [hde] at hlab
  rw [hlab, hm] at hnm
  cases hnm

/-- C4 counterexample: the label "vpn" matches the ignore pattern "v?n"
glob-style (`?` matches one character), there is no desired record at
"vpn", and yet cloudflare's `GetDomainCorrections` emits a deletion for the
existing CNAME at "vpn" — `labelMatches` compares labels to the configured
patterns by exact string equality only. -/
theorem cloudflare_glob_ignore_counterexample :
    globMatches "v?n" "vpn" = true ∧
    labelMatches "vpn" ["v?n"] = false ∧
    cfGetDomainCorrections ["v?n"] "" "" none
      [⟨"vpn", "CNAME", "other.example.com.", 3600, ""⟩] [] =
      .ok [⟨.del, "CNAME", "vpn", "- DELETE vpn CNAME other.example.com."⟩] := by
  refine ⟨?_, by decide, by rfl⟩
  simp [globMatches, globMatch]

/-- Witness for the amended C4: with ignore pattern "vpn", an existing
CNAME at "vpn" and an unrelated existing A record at "www", the single
emitted deletion is at "www", not at "vpn". -/
theorem cloudflare_ignored_existing_label_not_deleted_witness :
    (⟨.del, "A", "www", "- DELETE www A 1.2.3.4"⟩ : Correction).label ≠ "vpn" :=
  cloudflare_ignored_existing_label_not_deleted ["vpn"] "" "" none
    [⟨"vpn", "CNAME", "other.example.com.", 3600, ""⟩, ⟨"www", "A", "1.2.3.4", 3600, ""⟩]
    [] [⟨.del, "A", "www", "- DELETE www A 1.2.3.4"⟩] (by rfl)
    ⟨"vpn", "CNAME", "other.example.com.", 3600, ""⟩ (by decide) (by decide)
    ⟨.del, "A", "www", "- DELETE www A 1.2.3.4"⟩ (by decide) rfl

/-- C2: when the zone's purge flag is false (`KeepUnknown`), hosting.de's
corrections contain no deletions; concretely, with desired = ∅ and
existing = one A record, purge=true yields exactly one delete correction
and purge=false yields zero corrections. -/
theorem hostingde_purge_semantics :
    (∀ (desired existing : List Rec) (c : HCorrection),
        c ∈ hostingdeGetDomainCorrections true desired existing → c.del = [])
    ∧ hostingdeGetDomainCorrections false [] [⟨"@", "A", "1.2.3.4", 300, ""⟩] =
        [⟨"\n- DELETE @ A 1.2.3.4", [],
          [⟨some ⟨"@", "A", "1.2.3.4", 300, ""⟩, none⟩], []⟩]
    ∧ hostingdeGetDomainCorrections true [] [⟨"@", "A", "1.2.3.4", 300, ""⟩] = [] := by
  refine ⟨?_, by rfl, by rfl⟩
  intro desired existing c hc
  simp only [hostingdeGetDomainCorrections] at hc
  split_ifs at hc with hemp
  · cases hc
  · rcases List.mem_singleton.mp hc with rfl
    show (hdChangeset true desired existing).del = []
    simp [hdChangeset]

/-- Witness for C2: with purge off, a pure creation run emits one
correction whose deletion payload is empty. -/
theorem hostingde_purge_semantics_witness :
    (⟨"\n+ CREATE www A 1.2.3.4",
      [⟨none, some ⟨"www", "A", "1.2.3.4", 300, ""⟩⟩], [], []⟩ : HCorrection).del = [] :=
  hostingde_purge_semantics.1 [⟨"www", "A", "1.2.3.4", 300, ""⟩] [] _ (by decide)

theorem chunkTxt_small {l : List Nat} (h : l.length ≤ 255) : chunkTxt l = [l] := by
  rw [chunkTxt, if_pos h]

theorem chunkTxt_le (l : List Nat) : ∀ c ∈ chunkTxt l, c.length ≤ 255 := by
  have H : ∀ (n : Nat) (l : List Nat), l.length = n → ∀ c ∈ chunkTxt l, c.length ≤ 255 := by
    intro n
    induction n using Nat.strong_induction_on with
    | _ n ih =>
      intro l hn
      subst hn
      by_cases h : l.length ≤ 255
      · rw [chunkTxt_small h]
        intro c hc
        rcases List.mem_singleton.mp hc with rfl
        exact h
      · rw [chunkTxt, if_neg h]
        intro c hc
        rcases List.mem_cons.mp hc with rfl | hc
        · exact List.length_take_le _ _
        · exact ih (l.drop 255).length (by simp only [List.length_drop]; omega)
            (l.drop 255) rfl c hc
  exact H l.length l rfl

theorem flatMap_chunkTxt_of_small {ss : List (List Nat)}
    (h : ∀ c ∈ ss, c.length ≤ 255) : ss.flatMap chunkTxt = ss := by
  induction ss with
  | nil => rfl
  | cons c ss ih =>
    rw [List.flatMap_cons, chunkTxt_small (h c (List.mem_cons_self _ _)),
      ih fun c' hc' => h c' (List.mem_cons_of_mem _ hc')]
    rfl

theorem chunkTxt_len600 {l : List Nat} (h : l.length = 600) :
    (chunkTxt l).length = 3 := by
  have h1 : ¬(l.length ≤ 255) := by omega
  have h2 : ¬((l.drop 255).length ≤ 255) := by
    simp only [List.length_drop, h]
    omega
  have h3 : ((l.drop 255).drop 255).length ≤ 255 := by
    simp only [List.length_drop, h]
    omega
  rw [chunkTxt, if_neg h1, chunkTxt, if_neg h2, chunkTxt, if_pos h3]
  rfl

/-- C5: TXT normalization splits content into chunks of at most 255 octets
each, a 600-octet value yields exactly 3 chunks, and re-normalizing
already-chunked content returns it unchanged. -/
theorem txt_chunking_contract :
    (∀ l : List Nat, ∀ c ∈ chunkTxt l, c.length ≤ 255)
    ∧ (∀ l : List Nat, l.length = 600 → (chunkTxt l).length = 3)
    ∧ (∀ ss : List (List Nat), normTxtStrings (normTxtStrings ss) = normTxtStrings ss) := by
  refine ⟨chunkTxt_le, fun l h => chunkTxt_len600 h, fun ss => ?_⟩
  unfold normTxtStrings
  apply flatMap_chunkTxt_of_small
  intro c hc
  obtain ⟨l, _, hcl⟩ := List.mem_flatMap.mp hc
  exact chunkTxt_le l c hcl

/-- Witness for C5: the first chunk of a 600-octet value is within the
255-octet bound, and the value is split into exactly 3 chunks. -/
theorem txt_chunking_contract_witness :
    ((List.replicate 600 0).take 255).length ≤ 255
    ∧ (chunkTxt (List.replicate 600 0)).length = 3 := by
  constructor
  · apply txt_chunking_contract.1 (List.replicate 600 0)
    have hh : ¬((List.replicate 600 (0 : Nat)).length ≤ 255) := by
      rw [List.length_replicate]
      omega
    rw [chunkTxt, if_neg hh]
    exact List.mem_cons_self _ _
  · exact txt_chunking_contract.2.1 (List.replicate 600 0) (by rw [List.length_replicate])

theorem sortStrings_perm_eq {l l' : List String} (h : List.Perm l l') :
    sortStrings l = sortStrings l' := by
  have h1 : List.Sorted (· ≤ ·) (sortStrings l) := List.sorted_insertionSort _ l
  have h2 : List.Sorted (· ≤ ·) (sortStrings l') := List.sorted_insertionSort _ l'
  exact List.eq_of_perm_of_sorted
    ((List.perm_insertionSort _ l).trans (h.trans (List.perm_insertionSort _ l').symm))
    h1 h2

/-- C6: hosting.de's registrar correction output is deterministic and
order-insensitive — presenting either nameserver list in a different order
yields the identical correction list (content and message).  The sorting
before joining makes the comparison and the rendered message independent of
input order. -/
theorem registrar_corrections_order_insensitive
    (found found' expected expected' : List String)
    (hf : List.Perm found' found) (he : List.Perm expected' expected) :
    hostingdeGetRegistrarCorrections found' expected' =
      hostingdeGetRegistrarCorrections found expected := by
  unfold hostingdeGetRegistrarCorrections
  rw [sortStrings_perm_eq hf, sortStrings_perm_eq he]

/-- Witness for C6: swapping the two found nameservers leaves the output
unchanged. -/
theorem registrar_corrections_order_insensitive_witness :
    hostingdeGetRegistrarCorrections ["ns2.example.com.", "ns1.example.com."]
        ["ns1.example.com."] =
      hostingdeGetRegistrarCorrections ["ns1.example.com.", "ns2.example.com."]
        ["ns1.example.com."] :=
  registrar_corrections_order_insensitive _ _ _ _
    (List.Perm.swap _ _ _) (List.Perm.refl _)

/-- C7 counterexample: hosting.de bundles several operations into one
Correction — with two existing records to delete and purge on, the emitted
list has a single Correction carrying both deletions (and a single joined
message), not one Correction per operation. -/
theorem hostingde_bundled_correction_counterexample :
    (hostingdeGetDomainCorrections false []
        [⟨"a", "A", "1.2.3.4", 300, ""⟩, ⟨"b", "A", "5.6.7.8", 300, ""⟩]).length = 1
    ∧ ((hostingdeGetDomainCorrections false []
        [⟨"a", "A", "1.2.3.4", 300, ""⟩, ⟨"b", "A", "5.6.7.8", 300, ""⟩]).headD
          ⟨"", [], [], []⟩).del.length = 2 := by
  exact ⟨rfl, rfl⟩

/-- C7 (amended): hosting.de emits at most one Correction per zone; when
one is emitted, it carries the zone's entire changeset (all creations,
deletions and modifications) as a single unit of work with one combined
message, rather than one Correction per operation. -/
theorem hostingde_single_bundled_correction (k : Bool) (desired existing : List Rec) :
    (hostingdeGetDomainCorrections k desired existing).length ≤ 1
    ∧ ∀ c ∈ hostingdeGetDomainCorrections k desired existing,
        c.create = (hdChangeset k desired existing).create
        ∧ c.del = (hdChangeset k desired existing).del
        ∧ c.mod = (hdChangeset k desired existing).mod := by
  simp only [hostingdeGetDomainCorrections]
  split_ifs with hemp
  · exact ⟨by simp, fun c hc => by cases hc⟩
  · refine ⟨by simp, fun c hc => ?_⟩
    rcases List.mem_singleton.mp hc with rfl
    exact ⟨rfl, rfl, rfl⟩

/-- Witness for the amended C7 at a one-deletion zone. -/
theorem hostingde_single_bundled_correction_witness :
    (hostingdeGetDomainCorrections false [] [⟨"a", "A", "1.2.3.4", 300, ""⟩]).length ≤ 1
    ∧ (⟨"\n- DELETE a A 1.2.3.4", [],
        [⟨some ⟨"a", "A", "1.2.3.4", 300, ""⟩, none⟩], []⟩ : HCorrection).del
      = (hdChangeset false [] [⟨"a", "A", "1.2.3.4", 300, ""⟩]).del :=
  ⟨(hostingde_single_bundled_correction false [] _).1,
   ((hostingde_single_bundled_correction false [] _).2 _ (by decide)).2.1⟩

theorem exoDecodeRecord_not_ns {r : ExoRecord} {rc : Rec}
    (h : exoDecodeRecord r = some rc) : rc.rtype ≠ "NS" := by
  unfold exoDecodeRecord at h
  split_ifs at h with h1 h2
  all_goals cases h
  all_goals exact fun hr => h1 (Or.inr hr)

theorem incrementalDiff_create_mem {extras : Rec → List (String × String)}
    {desired existing : List Rec} {d : Correlation}
    (hd : d ∈ (incrementalDiff extras desired existing).create) :
    ∃ c ∈ desired, d = ⟨none, some c⟩ := by
  simp only [incrementalDiff] at hd
  obtain ⟨c, hc, rfl⟩ := List.mem_map.mp hd
  exact ⟨c, (List.mem_filter.mp hc).1, rfl⟩

theorem incrementalDiff_mod_mem {extras : Rec → List (String × String)}
    {desired existing : List Rec} {d : Correlation}
    (hd : d ∈ (incrementalDiff extras desired existing).mod) :
    ∃ e ∈ existing, ∃ c ∈ desired, d = ⟨some e, some c⟩ := by
  simp only [incrementalDiff] at hd
  obtain ⟨e, he, hfe⟩ := List.mem_filterMap.mp hd
  rcases hf : desired.find? (fun d' => identityKey d' == identityKey e) with _ | c <;>
    rw [hf] at hfe
  · cases hfe
  · have hfc : (if recDiffers extras e c then
        some (⟨some e, some c⟩ : Correlation) else none) = some d := hfe
    split_ifs at hfc
    cases hfc
    exact ⟨e, he, c, List.mem_of_find?_eq_some hf, rfl⟩

theorem removeOtherNS_not_ns {desired : List Rec} {r : Rec}
    (h : r ∈ removeOtherNS desired) : r.rtype ≠ "NS" := by
  have := (List.mem_filter.mp h).2
  simpa using this

/-- C8 counterexample: in the cloudflare provider (a cited source of the
claim), `checkNSModifications` filters only the desired records, so an
existing apex NS record with no desired NS record — a zone with no
nameserver-management directive at all — does produce a delete correction,
refuting "no apex NS record present in the existing set but absent from the
desired set ever produces a delete correction" for that provider. -/
theorem cloudflare_apex_ns_delete_counterexample :
    cfGetDomainCorrections [] "" "" none
      [⟨"@", "NS", "ns1.example.net.", 3600, ""⟩] [] =
      .ok [⟨.del, "NS", "@", "- DELETE @ NS ns1.example.net."⟩] := by
  rfl

/-- C8 (amended, restricted to the exoscale provider): exoscale's
corrections never touch an NS record: existing NS records (the apex set
exoscale owns) are skipped when fetching, and desired NS records are
dropped before diffing — so an apex NS record absent from the desired
state never produces a delete correction there.  The cloudflare provider
filters only desired apex NS records (`checkNSModifications`), so this
frame property does not hold for it. -/
theorem exoscale_apex_ns_never_deleted (desired : List Rec) (api : List ExoRecord) :
    ∀ c ∈ exoscaleGetDomainCorrections desired api, c.rtype ≠ "NS" := by
  intro c hc
  unfold exoscaleGetDomainCorrections at hc
  rcases List.mem_append.mp hc with hc | hc
  rcases List.mem_append.mp hc with hc | hc
  · obtain ⟨d, hd, rfl⟩ := List.mem_map.mp hc
    obtain ⟨e, he, rfl⟩ := incrementalDiff_del_mem hd
    obtain ⟨a, -, ha⟩ := List.mem_filterMap.mp he
    exact exoDecodeRecord_not_ns ha
  · obtain ⟨d, hd, rfl⟩ := List.mem_map.mp hc
    obtain ⟨cr, hcr, rfl⟩ := incrementalDiff_create_mem hd
    exact removeOtherNS_not_ns hcr
  · obtain ⟨d, hd, rfl⟩ := List.mem_map.mp hc
    obtain ⟨e, -, cr, hcr, rfl⟩ := incrementalDiff_mod_mem hd
    exact removeOtherNS_not_ns hcr

/-- Witness for C8: a zone whose API state has an apex NS record and a
stale A record; the emitted corrections (delete old A, create www A) touch
no NS record. -/
theorem exoscale_apex_ns_never_deleted_witness :
    (⟨.del, "A", "old", "- DELETE old A 9.9.9.9"⟩ : Correction).rtype ≠ "NS" :=
  exoscale_apex_ns_never_deleted [⟨"www", "A", "1.2.3.4", 300, ""⟩]
    [⟨"NS", "", "ns1.exoscale.io", 3600, none⟩, ⟨"A", "old", "9.9.9.9", 300, none⟩]
    _ (by decide)

/-- C9: after hosting.de's preprocessing, every desired record's TTL lies
in [60, 31556926]; TTLs below 60 (including the zone-default marker 0)
become 60 and TTLs above 31556926 become 31556926. -/
theorem clampTTL_ttl (r : Rec) :
    (clampTTL r).ttl =
      if r.ttl < 60 then 60 else if r.ttl > 31556926 then 31556926 else r.ttl := by
  unfold clampTTL
  by_cases h1 : r.ttl < 60
  · simp [h1]
  · simp only [h1, ite_false]
    split_ifs with h2 <;> simp_all

theorem hostingde_ttl_clamp :
    (∀ l : List Rec, ∀ r ∈ clampRecords l, 60 ≤ r.ttl ∧ r.ttl ≤ 31556926)
    ∧ (∀ r : Rec, r.ttl < 60 → (clampTTL r).ttl = 60)
    ∧ (∀ r : Rec, 31556926 < r.ttl → (clampTTL r).ttl = 31556926) := by
  refine ⟨?_, ?_, ?_⟩
  · intro l r hr
    obtain ⟨a, -, rfl⟩ := List.mem_map.mp hr
    rw [clampTTL_ttl]
    split_ifs <;> omega
  · intro r h
    rw [clampTTL_ttl, if_pos h]
  · intro r h
    rw [clampTTL_ttl, if_neg (by omega), if_pos h]

/-- Witness for C9 at TTL 0 (zone default) and at a TTL above one year. -/
theorem hostingde_ttl_clamp_witness :
    (60 ≤ (clampTTL ⟨"@", "A", "1.2.3.4", 0, ""⟩).ttl
      ∧ (clampTTL ⟨"@", "A", "1.2.3.4", 0, ""⟩).ttl ≤ 31556926)
    ∧ (clampTTL ⟨"@", "A", "1.2.3.4", 0, ""⟩).ttl = 60
    ∧ (clampTTL ⟨"@", "A", "1.2.3.4", 40000000, ""⟩).ttl = 31556926 :=
  ⟨hostingde_ttl_clamp.1 [⟨"@", "A", "1.2.3.4", 0, ""⟩] _ (by decide),
   hostingde_ttl_clamp.2.1 _ (by decide),
   hostingde_ttl_clamp.2.2 _ (by decide)⟩

/-- C10: hosting.de's `EnsureDomainExists` returns success whenever the
zone-config lookup fails with any error other than the zone-not-found
sentinel — the error is silently discarded and no zone is created; only
zone-not-found triggers zone creation. -/
theorem hostingde_ensure_domain_swallows_lookup_errors :
    (∀ (msg : String) (cr : Option String),
        ensureDomainExists (.otherError msg) cr = (none, false))
    ∧ (∀ (lookup : ZoneLookup) (cr : Option String),
        (ensureDomainExists lookup cr).2 = true ↔ lookup = .zoneNotFound) := by
  constructor
  · intro msg cr
    rfl
  · intro lookup cr
    cases lookup with
    | found => simp [ensureDomainExists]
    | zoneNotFound => cases cr <;> simp [ensureDomainExists]
    | otherError m => simp [ensureDomainExists]

/-- Witness for C10: a failed lookup ("boom") is swallowed even though zone
creation would fail. -/
theorem hostingde_ensure_domain_swallows_lookup_errors_witness :
    ensureDomainExists (.otherError "boom") (some "create failed") = (none, false) :=
  hostingde_ensure_domain_swallows_lookup_errors.1 "boom" (some "create failed")

end DnsControl
